import Mathlib

set_option maxRecDepth 2000

/-!
Verification of the bonding-curve pricing and ledger engine of the
`TokenFactory` contract (`src/BondingCurveSEI.sol`) and its companion
`Token` ERC20 contract.

The Solidity code is shallowly embedded into Lean:
* `uint256` values become `Nat`; Solidity 0.8 checked arithmetic reverts
  on overflow, so wherever overflow is relevant (the `staticcall`-guarded
  cost evaluation inside `calculateTokenAmountFromEth`) we use explicit
  checked operations returning `Option Nat` with the bound `2 ^ 256`.
* storage mutation becomes explicit state passing on a `FState` record;
  a reverting call becomes `Except Err _`, which is atomic by construction
  (an error carries no successor state).
* The contract keys its ledger per token address and token balances per
  holder, and distinct assets/holders never interact pre-launch, so the
  state records the ledger of one asset together with the balance of one
  trader (`msg.sender`) and the global fee accumulator.
* External collaborators (the Uniswap router/factory and the native-SEI
  transfers) are modelled as always succeeding; the `require(ethAmount > 0)`
  guard of `_launchOnUniswap` is kept because it can abort a buy.
-/

namespace BondingCurve

/-- `10 ** 18`, the fixed-point scale (`DECIMALS` in the source). -/
def DECIMALS : Nat := 10 ^ 18

/-- `1_000_000 * DECIMALS` (`MAX_SUPPLY`). -/
def MAX_SUPPLY : Nat := 1000000 * DECIMALS

/-- `(MAX_SUPPLY * 20) / 100` (`INIT_SUPPLY`), the LP allotment. -/
def INIT_SUPPLY : Nat := MAX_SUPPLY * 20 / 100

/-- `INITIAL_PRICE` constant of the source. -/
def INITIAL_PRICE : Nat := 11400755737022590

/-- Curvature constant `K` of the source (Q18). -/
def K : Nat := 4900862993591

/-- `FEE_BPS = 100` (1% trading fee). -/
def FEE_BPS : Nat := 100

/-- `BPS_DENOMINATOR = 10_000`. -/
def BPS_DENOMINATOR : Nat := 10000

/-- `MEMECOIN_FUNDING_GOAL = 115_000 ether`. -/
def MEMECOIN_FUNDING_GOAL : Nat := 115000 * DECIMALS

/-- `MEMETOKEN_CREATION_FEE = 0.000001 ether`. -/
def MEMETOKEN_CREATION_FEE : Nat := 10 ^ 12

/-- The curve cap `MAX_SUPPLY - INIT_SUPPLY` (`maxCurveRaw` in `buyMemeToken`). -/
def maxCurveRaw : Nat := MAX_SUPPLY - INIT_SUPPLY

/-- `2 ^ 256`, the `uint256` overflow bound. -/
def U256 : Nat := 2 ^ 256

/-- The largest exponent argument `exp` receives from in-range curve states:
`K * (maxCurveRaw / DECIMALS)`, i.e. `K * 800000`. -/
def XMAX : Nat := K * 800000

/-- The loop body of the source `exp`: `fuel` counts the remaining
iterations (the source iterates `i = 1 .. 20`), `term` and `sum` are the
loop variables.  Each round executes
`term = (term * x) / (i * DECIMALS); sum += term; if (term < 1) break;`. -/
def expAux (x : Nat) : Nat → Nat → Nat → Nat → Nat
  | 0, _, _, sum => sum
  | fuel + 1, i, term, sum =>
    let term' := term * x / (i * DECIMALS)
    let sum' := sum + term'
    if term' < 1 then sum' else expAux x fuel (i + 1) term' sum'

/-- Source `exp`: fixed-point `e^(x/1e18) * 1e18` by truncated Maclaurin
series, at most 20 iterations, early exit once a term truncates to zero. -/
def exp (x : Nat) : Nat := expAux x 20 1 DECIMALS DECIMALS

/-- Source `calculateCost(currentRaw, amountRaw)`. -/
def calculateCost (currentRaw amountRaw : Nat) : Nat :=
  let exponent1 := K * (currentRaw + amountRaw) / DECIMALS
  let exponent0 := K * currentRaw / DECIMALS
  let exp1 := exp exponent1
  let exp0 := exp exponent0
  INITIAL_PRICE * (exp1 - exp0) / K

/-- Source `calculateRefund(currentRaw, amountRaw)`. -/
def calculateRefund (currentRaw amountRaw : Nat) : Nat :=
  let exponent1 := K * currentRaw / DECIMALS
  let exponent0 := K * (currentRaw - amountRaw) / DECIMALS
  let exp1 := exp exponent1
  let exp0 := exp exponent0
  INITIAL_PRICE * (exp1 - exp0) / K

/-! ### The Maclaurin terms as a recurrence

`T x i` is the value of the loop variable `term` after `i` iterations of
the source `exp` loop (before any early exit), i.e. the truncated series
term `x^i / (i! * DECIMALS^(i-1))` computed with truncation toward zero
at every step, scaled so that `T x 0 = DECIMALS`. -/

/-- `i`-th truncated Maclaurin term of the Q18 `exp`. -/
def T (x : Nat) : Nat → Nat
  | 0 => DECIMALS
  | i + 1 => T x i * x / ((i + 1) * DECIMALS)

/-- The full 20-term truncated Maclaurin sum (no early exit). -/
def maclaurinSum (x : Nat) : Nat :=
  DECIMALS + ∑ i ∈ Finset.range 20, T x (i + 1)

theorem DECIMALS_pos : 0 < DECIMALS := by decide

theorem T_one (x : Nat) : T x 1 = x := by
  show DECIMALS * x / (1 * DECIMALS) = x
  rw [one_mul, Nat.mul_div_cancel_left _ DECIMALS_pos]

/-- Once a term truncates to zero, all later terms are zero. -/
theorem T_zero_of_zero {x i : Nat} (h : T x i = 0) :
    ∀ j, i ≤ j → T x j = 0 := by
  intro j hij
  induction j with
  | zero => exact (by omega : i = 0) ▸ h
  | succ n ih =>
    rcases Nat.lt_or_ge i (n + 1) with hlt | hge
    · have hn : T x n = 0 := ih (by omega)
      show T x n * x / ((n + 1) * DECIMALS) = 0
      rw [hn, Nat.zero_mul, Nat.zero_div]
    · have : i = n + 1 := by omega
      exact this ▸ h

/-- The source loop, started at iteration `i` with the correct loop state,
computes the full 20-term sum: the early exit only skips zero terms. -/
theorem expAux_eq_sum (x : Nat) :
    ∀ fuel i, 1 ≤ i → i + fuel = 21 →
      expAux x fuel i (T x (i - 1))
        (DECIMALS + ∑ j ∈ Finset.range (i - 1), T x (j + 1)) =
      maclaurinSum x := by
  intro fuel
  induction fuel with
  | zero =>
    intro i h1 h2
    have hi : i = 21 := by omega
    subst hi
    rfl
  | succ n ih =>
    intro i h1 h2
    show (let term' := T x (i - 1) * x / (i * DECIMALS);
          let sum' := (DECIMALS + ∑ j ∈ Finset.range (i - 1), T x (j + 1)) + term';
          if term' < 1 then sum' else expAux x n (i + 1) term' sum') = _
    have hterm : T x (i - 1) * x / (i * DECIMALS) = T x i := by
      conv_rhs => rw [show i = (i - 1) + 1 by omega]
      show _ = T x (i - 1) * x / ((i - 1 + 1) * DECIMALS)
      rw [show i - 1 + 1 = i by omega]
    have hsum : (DECIMALS + ∑ j ∈ Finset.range (i - 1), T x (j + 1)) + T x i =
        DECIMALS + ∑ j ∈ Finset.range i, T x (j + 1) := by
      conv_rhs => rw [show i = (i - 1) + 1 by omega]
      rw [Finset.sum_range_succ, show i - 1 + 1 = i by omega]
      omega
    simp only [hterm, hsum]
    by_cases hz : T x i < 1
    · have hz0 : T x i = 0 := by omega
      simp only [if_pos hz]
      unfold maclaurinSum
      have : ∀ j ∈ Finset.range 20, j ∉ Finset.range i → T x (j + 1) = 0 := by
        intro j _ hj
        simp only [Finset.mem_range, not_lt] at hj
        exact T_zero_of_zero hz0 (j + 1) (by omega)
      rw [Finset.sum_subset (Finset.range_subset.mpr (by omega : i ≤ 20)) this]
    · simp only [if_neg hz]
      have := ih (i + 1) (by omega) (by omega)
      rw [show i + 1 - 1 = i by omega] at this
      exact this

/-- The source `exp` equals the truncated 20-term Maclaurin sum. -/
theorem exp_eq_maclaurinSum (x : Nat) : exp x = maclaurinSum x := by
  have := expAux_eq_sum x 20 1 (by omega) (by omega)
  simpa [exp, T] using this

/-! ### Bounds on the truncated terms

`den i = i! * DECIMALS ^ i` is the exact denominator of the `i`-th true
series term, so that `T x i ≈ DECIMALS * x ^ i / den i`.  `errB i` is a
per-term truncation-error budget valid whenever `x ≤ XMAX`. -/

/-- `den i = i! * DECIMALS ^ i`, as a recurrence matching `T`. -/
def den : Nat → Nat
  | 0 => 1
  | i + 1 => den i * ((i + 1) * DECIMALS)

/-- Error budget for the `i`-th truncated term on `[0, XMAX]`. -/
def errB : Nat → Nat
  | 0 => 0
  | 1 => 0
  | 2 => 1
  | 3 => 3
  | 4 => 4
  | 5 => 5
  | 6 => 5
  | 7 => 4
  | _ + 8 => 3

theorem den_pos (i : Nat) : 0 < den i := by
  induction i with
  | zero => decide
  | succ n ih =>
    have : 0 < (n + 1) * DECIMALS := Nat.mul_pos (by omega) DECIMALS_pos
    exact Nat.mul_pos ih this

theorem T_mono {x y : Nat} (h : x ≤ y) (i : Nat) : T x i ≤ T y i := by
  induction i with
  | zero => exact le_refl _
  | succ n ih =>
    exact Nat.div_le_div_right (Nat.mul_le_mul ih h)

theorem maclaurinSum_mono {x y : Nat} (h : x ≤ y) :
    maclaurinSum x ≤ maclaurinSum y := by
  unfold maclaurinSum
  have : ∑ i ∈ Finset.range 20, T x (i + 1) ≤ ∑ i ∈ Finset.range 20, T y (i + 1) :=
    Finset.sum_le_sum fun i _ => T_mono h (i + 1)
  omega

/-- The first-order term is exact, so the sum grows at least linearly. -/
theorem maclaurinSum_add_le {x y : Nat} (h : x ≤ y) :
    maclaurinSum x + (y - x) ≤ maclaurinSum y := by
  unfold maclaurinSum
  have hx : ∑ i ∈ Finset.range 20, T x (i + 1) =
      (∑ i ∈ Finset.range 19, T x (i + 1 + 1)) + T x 1 := by
    exact Finset.sum_range_succ' (fun i => T x (i + 1)) 19
  have hy : ∑ i ∈ Finset.range 20, T y (i + 1) =
      (∑ i ∈ Finset.range 19, T y (i + 1 + 1)) + T y 1 := by
    exact Finset.sum_range_succ' (fun i => T y (i + 1)) 19
  have hrest : ∑ i ∈ Finset.range 19, T x (i + 1 + 1) ≤
      ∑ i ∈ Finset.range 19, T y (i + 1 + 1) :=
    Finset.sum_le_sum fun i _ => T_mono h (i + 1 + 1)
  rw [hx, hy, T_one, T_one]
  omega

/-- Truncation only loses: `T x i ≤ DECIMALS * x ^ i / den i`. -/
theorem T_upper (x : Nat) : ∀ i, T x i * den i ≤ DECIMALS * x ^ i := by
  intro i
  induction i with
  | zero => simp [T, den]
  | succ n ih =>
    show T x n * x / ((n + 1) * DECIMALS) * (den n * ((n + 1) * DECIMALS)) ≤ _
    have h1 : T x n * x / ((n + 1) * DECIMALS) * (den n * ((n + 1) * DECIMALS)) =
        T x n * x / ((n + 1) * DECIMALS) * ((n + 1) * DECIMALS) * den n := by ring
    have h2 : T x n * x / ((n + 1) * DECIMALS) * ((n + 1) * DECIMALS) ≤ T x n * x :=
      Nat.div_mul_le_self _ _
    calc T x n * x / ((n + 1) * DECIMALS) * (den n * ((n + 1) * DECIMALS))
        = T x n * x / ((n + 1) * DECIMALS) * ((n + 1) * DECIMALS) * den n := h1
      _ ≤ T x n * x * den n := Nat.mul_le_mul_right _ h2
      _ = T x n * den n * x := by ring
      _ ≤ DECIMALS * x ^ n * x := Nat.mul_le_mul_right _ ih
      _ = DECIMALS * x ^ (n + 1) := by ring

/-- Numeric side conditions for the error-budget recurrence on `[0, XMAX]`. -/
theorem errB_side : ∀ i, i < 20 → 1 ≤ i →
    errB i * XMAX ≤ (errB (i + 1) - 1) * ((i + 1) * DECIMALS) := by
  intro i h1 h2
  interval_cases i <;> decide

/-- Division floor: `(a / b + 1) * b ≥ a + 1` for `b > 0`. -/
theorem div_succ_mul {a b : Nat} (hb : 0 < b) : a + 1 ≤ (a / b + 1) * b := by
  have h := Nat.div_add_mod a b
  have h2 := Nat.mod_lt a hb
  nlinarith [Nat.div_add_mod a b]

/-- Truncation loses at most `errB i` on `[0, XMAX]`:
`DECIMALS * x ^ i ≤ (T x i + errB i) * den i`. -/
theorem T_lower {x : Nat} (hx : x ≤ XMAX) :
    ∀ i, i ≤ 20 → DECIMALS * x ^ i ≤ (T x i + errB i) * den i := by
  intro i
  induction i with
  | zero => intro _; simp [T, den, errB]
  | succ n ih =>
    intro hn
    rcases Nat.eq_zero_or_pos n with hn0 | hnpos
    · subst hn0
      rw [T_one]
      show DECIMALS * x ^ 1 ≤ (x + errB 1) * den 1
      have hden1 : (x + errB 1) * den 1 = DECIMALS * x := by
        show (x + 0) * (1 * (1 * DECIMALS)) = DECIMALS * x
        ring
      rw [hden1, pow_one]
    · have ihn := ih (by omega)
      -- (T x (n+1) + 1) * ((n+1) * DECIMALS) ≥ T x n * x + 1
      have hstep : T x n * x + 1 ≤ (T x (n + 1) + 1) * ((n + 1) * DECIMALS) := by
        have hpos : 0 < (n + 1) * DECIMALS := Nat.mul_pos (by omega) DECIMALS_pos
        exact div_succ_mul hpos
      have hmul : (T x n * x + 1) * den n ≤
          (T x (n + 1) + 1) * ((n + 1) * DECIMALS) * den n :=
        Nat.mul_le_mul_right _ hstep
      have hden : (T x (n + 1) + 1) * ((n + 1) * DECIMALS) * den n =
          (T x (n + 1) + 1) * den (n + 1) := by
        show _ = (T x (n + 1) + 1) * (den n * ((n + 1) * DECIMALS))
        ring
      have hIH : DECIMALS * x ^ n * x ≤ (T x n + errB n) * den n * x :=
        Nat.mul_le_mul_right _ ihn
      -- error-budget bookkeeping
      have hside : errB n * x * den n ≤ (errB (n + 1) - 1) * den (n + 1) := by
        have h1 : errB n * x ≤ errB n * XMAX := Nat.mul_le_mul_left _ hx
        have h2 : errB n * XMAX ≤ (errB (n + 1) - 1) * ((n + 1) * DECIMALS) :=
          errB_side n (by omega) hnpos
        calc errB n * x * den n ≤ (errB (n + 1) - 1) * ((n + 1) * DECIMALS) * den n :=
              Nat.mul_le_mul_right _ (le_trans h1 h2)
          _ = (errB (n + 1) - 1) * den (n + 1) := by
              show _ = (errB (n + 1) - 1) * (den n * ((n + 1) * DECIMALS)); ring
      have herrpos : 1 ≤ errB (n + 1) := by
        match n, hnpos with
        | 1, _ => decide
        | 2, _ => decide
        | 3, _ => decide
        | 4, _ => decide
        | 5, _ => decide
        | 6, _ => decide
        | m + 7, _ => exact (by omega : (1 : Nat) ≤ 3)
      calc DECIMALS * x ^ (n + 1) = DECIMALS * x ^ n * x := by ring
        _ ≤ (T x n + errB n) * den n * x := hIH
        _ = T x n * x * den n + errB n * x * den n := by ring
        _ ≤ T x n * x * den n + (errB (n + 1) - 1) * den (n + 1) := by
              omega
        _ ≤ (T x (n + 1) + 1) * den (n + 1) + (errB (n + 1) - 1) * den (n + 1) := by
              have h4 : (T x n * x + 1) * den n ≤ (T x (n + 1) + 1) * den (n + 1) :=
                hden ▸ hmul
              have h3 : T x n * x * den n ≤ (T x (n + 1) + 1) * den (n + 1) :=
                le_trans (Nat.mul_le_mul_right _ (Nat.le_succ _)) h4
              omega
        _ = (T x (n + 1) + 1 + (errB (n + 1) - 1)) * den (n + 1) := by ring
        _ = (T x (n + 1) + errB (n + 1)) * den (n + 1) := by
              congr 1
              omega

/-! ### Discrete convexity (four-point inequalities) -/

/-- Four-point convexity of `x ^ i`. -/
theorem pow_four_point (x h k i : Nat) :
    (x + k) ^ i + (x + h) ^ i ≤ (x + h + k) ^ i + x ^ i := by
  have hbin1 : (x + k) ^ i =
      ∑ j ∈ Finset.range (i + 1), x ^ j * k ^ (i - j) * (i.choose j) := by
    simpa using add_pow x k i
  have hbin2 : (x + h + k) ^ i =
      ∑ j ∈ Finset.range (i + 1), (x + h) ^ j * k ^ (i - j) * (i.choose j) := by
    simpa using add_pow (x + h) k i
  rw [hbin1, hbin2, Finset.sum_range_succ, Finset.sum_range_succ]
  have hlast1 : x ^ i * k ^ (i - i) * (i.choose i) = x ^ i := by
    simp [Nat.sub_self, Nat.choose_self]
  have hlast2 : (x + h) ^ i * k ^ (i - i) * (i.choose i) = (x + h) ^ i := by
    simp [Nat.sub_self, Nat.choose_self]
  rw [hlast1, hlast2]
  have hsum : ∑ j ∈ Finset.range i, x ^ j * k ^ (i - j) * (i.choose j) ≤
      ∑ j ∈ Finset.range i, (x + h) ^ j * k ^ (i - j) * (i.choose j) := by
    refine Finset.sum_le_sum fun j _ => ?_
    exact Nat.mul_le_mul_right _
      (Nat.mul_le_mul_right _ (Nat.pow_le_pow_left (Nat.le_add_right x h) j))
  omega

/-- The quadratic term is exactly convex with gap `2 * h * k`. -/
theorem sq_four_point (x h k : Nat) :
    (x + h + k) ^ 2 + x ^ 2 = (x + k) ^ 2 + (x + h) ^ 2 + 2 * (h * k) := by
  ring

/-- Per-term four-point inequality for the truncated Maclaurin terms, with
the quadratic term contributing a gap of `h * k / DECIMALS` and every term
paying at most `2 * errB` in truncation error. -/
theorem T_four_point {x h k : Nat} (hX : x + h + k ≤ XMAX) :
    ∀ j, j < 20 →
      T (x + k) (j + 1) + T (x + h) (j + 1) +
          (if j = 1 then h * k / DECIMALS else 0) ≤
        T (x + h + k) (j + 1) + T x (j + 1) + 2 * errB (j + 1) := by
  intro j hj
  have hd : 0 < den (j + 1) := den_pos (j + 1)
  have hA : DECIMALS * (x + h + k) ^ (j + 1) ≤
      (T (x + h + k) (j + 1) + errB (j + 1)) * den (j + 1) :=
    T_lower (le_trans (le_refl _) hX) (j + 1) (by omega)
  have hB : DECIMALS * x ^ (j + 1) ≤ (T x (j + 1) + errB (j + 1)) * den (j + 1) :=
    T_lower (by omega) (j + 1) (by omega)
  have hC : T (x + k) (j + 1) * den (j + 1) ≤ DECIMALS * (x + k) ^ (j + 1) :=
    T_upper (x + k) (j + 1)
  have hE : T (x + h) (j + 1) * den (j + 1) ≤ DECIMALS * (x + h) ^ (j + 1) :=
    T_upper (x + h) (j + 1)
  by_cases hj1 : j = 1
  · -- the quadratic term: den 2 = 2 * DECIMALS ^ 2
    subst hj1
    simp only [if_pos rfl]
    norm_num at hA hB hC hE hd ⊢
    have hden2 : den 2 = 2 * (DECIMALS * DECIMALS) := by
      show 1 * (1 * DECIMALS) * (2 * DECIMALS) = _
      ring
    have hkey : (T (x + k) 2 + T (x + h) 2 + h * k / DECIMALS) * den 2 ≤
        (T (x + h + k) 2 + T x 2 + 2 * errB 2) * den 2 := by
      have hdiv : h * k / DECIMALS * den 2 ≤ 2 * (h * k) * DECIMALS := by
        rw [hden2]
        have : h * k / DECIMALS * DECIMALS ≤ h * k := Nat.div_mul_le_self _ _
        calc h * k / DECIMALS * (2 * (DECIMALS * DECIMALS))
            = h * k / DECIMALS * DECIMALS * (2 * DECIMALS) := by ring
          _ ≤ h * k * (2 * DECIMALS) := Nat.mul_le_mul_right _ this
          _ = 2 * (h * k) * DECIMALS := by ring
      have hsq : DECIMALS * (x + k) ^ 2 + DECIMALS * (x + h) ^ 2 + 2 * (h * k) * DECIMALS
          = DECIMALS * ((x + h + k) ^ 2 + x ^ 2) := by
        have := sq_four_point x h k
        nlinarith [this]
      calc (T (x + k) 2 + T (x + h) 2 + h * k / DECIMALS) * den 2
          = T (x + k) 2 * den 2 + T (x + h) 2 * den 2 + h * k / DECIMALS * den 2 := by
            ring
        _ ≤ DECIMALS * (x + k) ^ 2 + DECIMALS * (x + h) ^ 2 + 2 * (h * k) * DECIMALS := by
            omega
        _ = DECIMALS * ((x + h + k) ^ 2 + x ^ 2) := hsq
        _ = DECIMALS * (x + h + k) ^ 2 + DECIMALS * x ^ 2 := by ring
        _ ≤ (T (x + h + k) 2 + errB 2) * den 2 + (T x 2 + errB 2) * den 2 := by
            omega
        _ = (T (x + h + k) 2 + T x 2 + 2 * errB 2) * den 2 := by ring
    exact Nat.le_of_mul_le_mul_right hkey hd
  · simp only [if_neg hj1, Nat.add_zero]
    have hpw : (x + k) ^ (j + 1) + (x + h) ^ (j + 1) ≤
        (x + h + k) ^ (j + 1) + x ^ (j + 1) :=
      pow_four_point x h k (j + 1)
    have hkey : (T (x + k) (j + 1) + T (x + h) (j + 1)) * den (j + 1) ≤
        (T (x + h + k) (j + 1) + T x (j + 1) + 2 * errB (j + 1)) * den (j + 1) := by
      calc (T (x + k) (j + 1) + T (x + h) (j + 1)) * den (j + 1)
          = T (x + k) (j + 1) * den (j + 1) + T (x + h) (j + 1) * den (j + 1) := by
            ring
        _ ≤ DECIMALS * (x + k) ^ (j + 1) + DECIMALS * (x + h) ^ (j + 1) := by omega
        _ = DECIMALS * ((x + k) ^ (j + 1) + (x + h) ^ (j + 1)) := by ring
        _ ≤ DECIMALS * ((x + h + k) ^ (j + 1) + x ^ (j + 1)) :=
            Nat.mul_le_mul_left _ hpw
        _ = DECIMALS * (x + h + k) ^ (j + 1) + DECIMALS * x ^ (j + 1) := by ring
        _ ≤ (T (x + h + k) (j + 1) + errB (j + 1)) * den (j + 1) +
              (T x (j + 1) + errB (j + 1)) * den (j + 1) := by
            omega
        _ = (T (x + h + k) (j + 1) + T x (j + 1) + 2 * errB (j + 1)) * den (j + 1) := by
            ring
    exact Nat.le_of_mul_le_mul_right hkey hd

/-- Total truncation-error budget over all 20 terms. -/
theorem errB_total : ∑ j ∈ Finset.range 20, 2 * errB (j + 1) = 122 := by
  simp [Finset.sum_range_succ, errB]

/-- Four-point inequality for the truncated Maclaurin sum: convexity up to
a total floor-error of `122`, with a guaranteed quadratic gap. -/
theorem maclaurinSum_four_point {x h k : Nat} (hX : x + h + k ≤ XMAX) :
    maclaurinSum (x + k) + maclaurinSum (x + h) + h * k / DECIMALS ≤
      maclaurinSum (x + h + k) + maclaurinSum x + 122 := by
  unfold maclaurinSum
  have hsum : ∑ j ∈ Finset.range 20,
        (T (x + k) (j + 1) + T (x + h) (j + 1) +
          (if j = 1 then h * k / DECIMALS else 0)) ≤
      ∑ j ∈ Finset.range 20,
        (T (x + h + k) (j + 1) + T x (j + 1) + 2 * errB (j + 1)) :=
    Finset.sum_le_sum fun j hj => T_four_point hX j (Finset.mem_range.mp hj)
  rw [Finset.sum_add_distrib, Finset.sum_add_distrib] at hsum
  rw [Finset.sum_add_distrib, Finset.sum_add_distrib] at hsum
  have hif : ∑ j ∈ Finset.range 20, (if j = 1 then h * k / DECIMALS else 0) =
      h * k / DECIMALS := by
    rw [Finset.sum_ite_eq' (Finset.range 20) 1 fun _ => h * k / DECIMALS]
    simp
  rw [hif, errB_total] at hsum
  omega

/-- `K * K / DECIMALS` is comfortably larger than the total error budget. -/
theorem KK_div_large : 123 ≤ K * K / DECIMALS := by decide

/-- Strict four-point inequality at whole-token steps: stepping the base
supply up by one token strictly increases the marginal cost numerator. -/
theorem maclaurinSum_four_point_strict {x m : Nat} (hm : 1 ≤ m)
    (hX : x + K * m + K ≤ XMAX) :
    maclaurinSum (x + K) + maclaurinSum (x + K * m) + 1 ≤
      maclaurinSum (x + K * m + K) + maclaurinSum x := by
  have h4 := maclaurinSum_four_point (h := K * m) (k := K) hX
  have hgap : 123 ≤ K * m * K / DECIMALS := by
    have h0 := KK_div_large
    have h2 : K * K ≤ K * m * K := by
      have : K * 1 * K ≤ K * m * K :=
        Nat.mul_le_mul_right _ (Nat.mul_le_mul_left _ hm)
      simpa using this
    have h3 : K * K / DECIMALS ≤ K * m * K / DECIMALS :=
      Nat.div_le_div_right h2
    omega
  omega

/-! ### Monotonicity and positivity of `calculateCost` -/

theorem calculateCost_eq (c a : Nat) :
    calculateCost c a =
      INITIAL_PRICE *
        (maclaurinSum (K * (c + a) / DECIMALS) - maclaurinSum (K * c / DECIMALS)) / K := by
  simp [calculateCost, exp_eq_maclaurinSum]

theorem calculateCost_zero (c : Nat) : calculateCost c 0 = 0 := by
  simp [calculateCost_eq]

/-- `calculateCost` is (non-strictly) monotone in the amount. -/
theorem calculateCost_mono_amount (c : Nat) {a1 a2 : Nat} (h : a1 ≤ a2) :
    calculateCost c a1 ≤ calculateCost c a2 := by
  rw [calculateCost_eq, calculateCost_eq]
  refine Nat.div_le_div_right (Nat.mul_le_mul_left _ (Nat.sub_le_sub_right ?_ _))
  exact maclaurinSum_mono (Nat.div_le_div_right (Nat.mul_le_mul_left _ (by omega)))

/-- Adding `m * DECIMALS` to the argument adds exactly `K * m` to the Q18
exponent (the fractional part is unchanged). -/
theorem exponent_add (c m : Nat) :
    K * (c + m * DECIMALS) / DECIMALS = K * c / DECIMALS + K * m := by
  have h : K * (c + m * DECIMALS) = K * c + K * m * DECIMALS := by ring
  rw [h, Nat.add_mul_div_right _ _ DECIMALS_pos]

theorem exponent_whole (n : Nat) : K * (n * DECIMALS) / DECIMALS = K * n := by
  rw [← Nat.mul_assoc, Nat.mul_div_cancel _ DECIMALS_pos]

theorem calculateCost_whole (u m : Nat) :
    calculateCost (u * DECIMALS) (m * DECIMALS) =
      INITIAL_PRICE * (maclaurinSum (K * (u + m)) - maclaurinSum (K * u)) / K := by
  rw [calculateCost_eq]
  have h1 : u * DECIMALS + m * DECIMALS = (u + m) * DECIMALS :=
    (Nat.add_mul u m DECIMALS).symm
  rw [h1, exponent_whole, exponent_whole]

/-- `calculateCost` is strictly increasing in the amount along whole-token
steps (multiples of `DECIMALS`), for any current supply. -/
theorem calculateCost_strictMono_delta (c : Nat) {m1 m2 : Nat} (h : m1 < m2) :
    calculateCost c (m1 * DECIMALS) < calculateCost c (m2 * DECIMALS) := by
  rw [calculateCost_eq, calculateCost_eq, exponent_add, exponent_add]
  have hKm : K * m1 + K ≤ K * m2 := by
    have h1 : K * (m1 + 1) ≤ K * m2 := Nat.mul_le_mul_left K (by omega)
    have h2 : K * (m1 + 1) = K * m1 + K := by ring
    omega
  have hlin : maclaurinSum (K * c / DECIMALS + K * m1) +
      (K * c / DECIMALS + K * m2 - (K * c / DECIMALS + K * m1)) ≤
      maclaurinSum (K * c / DECIMALS + K * m2) :=
    maclaurinSum_add_le (by omega)
  have hm0 : maclaurinSum (K * c / DECIMALS) ≤
      maclaurinSum (K * c / DECIMALS + K * m1) :=
    maclaurinSum_mono (Nat.le_add_right _ _)
  have hAB : maclaurinSum (K * c / DECIMALS + K * m1) - maclaurinSum (K * c / DECIMALS)
        + K ≤
      maclaurinSum (K * c / DECIMALS + K * m2) - maclaurinSum (K * c / DECIMALS) := by
    omega
  have hnum : INITIAL_PRICE *
        (maclaurinSum (K * c / DECIMALS + K * m1) - maclaurinSum (K * c / DECIMALS))
        + INITIAL_PRICE * K ≤
      INITIAL_PRICE *
        (maclaurinSum (K * c / DECIMALS + K * m2) - maclaurinSum (K * c / DECIMALS)) := by
    have := Nat.mul_le_mul_left INITIAL_PRICE hAB
    rw [Nat.mul_add] at this
    exact this
  have hdiv : INITIAL_PRICE *
        (maclaurinSum (K * c / DECIMALS + K * m1) - maclaurinSum (K * c / DECIMALS)) / K
        + INITIAL_PRICE ≤
      INITIAL_PRICE *
        (maclaurinSum (K * c / DECIMALS + K * m2) - maclaurinSum (K * c / DECIMALS)) / K := by
    have h1 := Nat.add_mul_div_right
      (INITIAL_PRICE *
        (maclaurinSum (K * c / DECIMALS + K * m1) - maclaurinSum (K * c / DECIMALS)))
      INITIAL_PRICE (show 0 < K by decide)
    have h2 := Nat.div_le_div_right (c := K) hnum
    omega
  have hP : 0 < INITIAL_PRICE := by decide
  omega

/-- `calculateCost` is strictly positive for whole-token amounts. -/
theorem calculateCost_pos (c : Nat) {m : Nat} (hm : 1 ≤ m) :
    0 < calculateCost c (m * DECIMALS) := by
  have h := calculateCost_strictMono_delta c (show 0 < m from hm)
  rw [Nat.zero_mul, calculateCost_zero] at h
  exact h

/-- One whole-token step up in supply strictly increases the cost of a
whole-token purchase, within the curve cap. -/
theorem calculateCost_supply_step {u m : Nat} (hm : 1 ≤ m)
    (hcap : u + 1 + m ≤ 800000) :
    calculateCost (u * DECIMALS) (m * DECIMALS) <
      calculateCost ((u + 1) * DECIMALS) (m * DECIMALS) := by
  rw [calculateCost_whole, calculateCost_whole]
  have hX : K * u + K * m + K ≤ XMAX := by
    have h1 : K * (u + (m + 1)) ≤ K * 800000 := Nat.mul_le_mul_left K (by omega)
    have h2 : K * (u + (m + 1)) = K * u + K * m + K := by ring
    have h3 : XMAX = K * 800000 := rfl
    omega
  have h4 := maclaurinSum_four_point_strict (x := K * u) hm hX
  have e1 : K * (u + m) = K * u + K * m := by ring
  have e2 : K * (u + 1) = K * u + K := by ring
  have e3 : K * (u + 1 + m) = K * u + K * m + K := by ring
  rw [e1, e2, e3]
  have hm1 : maclaurinSum (K * u) ≤ maclaurinSum (K * u + K * m) :=
    maclaurinSum_mono (Nat.le_add_right _ _)
  have hm2 : maclaurinSum (K * u + K) ≤ maclaurinSum (K * u + K * m + K) :=
    maclaurinSum_mono (by omega)
  have hAB : maclaurinSum (K * u + K * m) - maclaurinSum (K * u) + 1 ≤
      maclaurinSum (K * u + K * m + K) - maclaurinSum (K * u + K) := by
    omega
  have hnum : INITIAL_PRICE *
        (maclaurinSum (K * u + K * m) - maclaurinSum (K * u)) + K ≤
      INITIAL_PRICE *
        (maclaurinSum (K * u + K * m + K) - maclaurinSum (K * u + K)) := by
    have h5 := Nat.mul_le_mul_left INITIAL_PRICE hAB
    rw [Nat.mul_add, Nat.mul_one] at h5
    have hPK : K ≤ INITIAL_PRICE := by decide
    omega
  have h6 := Nat.div_le_div_right (c := K) hnum
  have h7 := Nat.add_div_right
    (INITIAL_PRICE * (maclaurinSum (K * u + K * m) - maclaurinSum (K * u)))
    (show 0 < K by decide)
  omega

/-- `calculateCost` is strictly increasing in the supply at whole-token
granularity, within the curve cap. -/
theorem calculateCost_strictMono_supply {u1 u2 m : Nat} (hm : 1 ≤ m)
    (h : u1 < u2) (hcap : u2 + m ≤ 800000) :
    calculateCost (u1 * DECIMALS) (m * DECIMALS) <
      calculateCost (u2 * DECIMALS) (m * DECIMALS) := by
  have aux : ∀ d u, u + d + 1 + m ≤ 800000 →
      calculateCost (u * DECIMALS) (m * DECIMALS) <
        calculateCost ((u + d + 1) * DECIMALS) (m * DECIMALS) := by
    intro d
    induction d with
    | zero =>
      intro u hc
      exact calculateCost_supply_step hm (by omega)
    | succ n ih =>
      intro u hc
      have h1 := ih u (by omega)
      have h2 : calculateCost ((u + n + 1) * DECIMALS) (m * DECIMALS) <
          calculateCost ((u + n + 1 + 1) * DECIMALS) (m * DECIMALS) :=
        calculateCost_supply_step hm (by omega)
      have h3 : u + n + 1 + 1 = u + (n + 1) + 1 := by omega
      rw [h3] at h2
      exact lt_trans h1 h2
  have h4 := aux (u2 - u1 - 1) u1 (by omega)
  have h5 : u1 + (u2 - u1 - 1) + 1 = u2 := by omega
  rw [h5] at h4
  exact h4

/-! ### Checked (`uint256`) arithmetic

Solidity 0.8 arithmetic reverts on overflow/underflow.  The
`staticcall` inside `calculateTokenAmountFromEth` turns such a revert of
`calculateCost` into `ok = false`; we model the checked operations with
`Option`. -/

/-- Checked `uint256` addition. -/
def cadd (a b : Nat) : Option Nat := if a + b < U256 then some (a + b) else none

/-- Checked `uint256` multiplication. -/
def cmul (a b : Nat) : Option Nat := if a * b < U256 then some (a * b) else none

/-- Checked `uint256` subtraction. -/
def csub (a b : Nat) : Option Nat := if b ≤ a then some (a - b) else none

theorem cadd_pos {a b : Nat} (h : a + b < U256) : cadd a b = some (a + b) := if_pos h

theorem cmul_pos {a b : Nat} (h : a * b < U256) : cmul a b = some (a * b) := if_pos h

theorem csub_pos {a b : Nat} (h : b ≤ a) : csub a b = some (a - b) := if_pos h

/-- The `exp` loop with checked arithmetic: any overflow reverts the call. -/
def expCheckedAux (x : Nat) : Nat → Nat → Nat → Nat → Option Nat
  | 0, _, _, sum => some sum
  | fuel + 1, i, term, sum =>
    match cmul term x with
    | none => none
    | some p =>
      match cmul i DECIMALS with
      | none => none
      | some q =>
        let term' := p / q
        match cadd sum term' with
        | none => none
        | some sum' =>
          if term' < 1 then some sum' else expCheckedAux x fuel (i + 1) term' sum'

/-- `exp` with checked arithmetic. -/
def expChecked (x : Nat) : Option Nat := expCheckedAux x 20 1 DECIMALS DECIMALS

/-- `calculateCost` with checked arithmetic, as observed through the
`staticcall` in `calculateTokenAmountFromEth`. -/
def calculateCostChecked (currentRaw amountRaw : Nat) : Option Nat :=
  match cadd currentRaw amountRaw with
  | none => none
  | some s =>
    match cmul K s with
    | none => none
    | some n1 =>
      let exponent1 := n1 / DECIMALS
      match cmul K currentRaw with
      | none => none
      | some n0 =>
        let exponent0 := n0 / DECIMALS
        match expChecked exponent1 with
        | none => none
        | some exp1 =>
          match expChecked exponent0 with
          | none => none
          | some exp0 =>
            match csub exp1 exp0 with
            | none => none
            | some d =>
              match cmul INITIAL_PRICE d with
              | none => none
              | some n => some (n / K)

/-- Term-size bound along the loop on `[0, XMAX]`. -/
theorem TX_bound : ∀ j, j < 21 → T XMAX j * XMAX < U256 := by
  intro j h
  interval_cases j <;> decide

theorem exp_XMAX_lt : exp XMAX < U256 := by decide

theorem partialSum_le (x : Nat) {i : Nat} (hi : i ≤ 20) :
    DECIMALS + ∑ j ∈ Finset.range i, T x (j + 1) ≤ maclaurinSum x := by
  unfold maclaurinSum
  have h : (∑ j ∈ Finset.range i, T x (j + 1)) ≤
      ∑ j ∈ Finset.range 20, T x (j + 1) :=
    Finset.sum_le_sum_of_subset (Finset.range_subset.mpr hi)
  omega

/-- On `[0, XMAX]` the checked `exp` loop never overflows and agrees with
the unchecked loop. -/
theorem expCheckedAux_eq {x : Nat} (hx : x ≤ XMAX) :
    ∀ fuel i, 1 ≤ i → i + fuel = 21 →
      expCheckedAux x fuel i (T x (i - 1))
          (DECIMALS + ∑ j ∈ Finset.range (i - 1), T x (j + 1)) =
        some (expAux x fuel i (T x (i - 1))
          (DECIMALS + ∑ j ∈ Finset.range (i - 1), T x (j + 1))) := by
  intro fuel
  induction fuel with
  | zero => intro i h1 h2; rfl
  | succ n ih =>
    intro i h1 h2
    have hb1 : T x (i - 1) * x < U256 := by
      have ha : T x (i - 1) * x ≤ T XMAX (i - 1) * XMAX :=
        Nat.mul_le_mul (T_mono hx (i - 1)) hx
      have hb := TX_bound (i - 1) (by omega)
      omega
    have hb2 : i * DECIMALS < U256 := by
      have ha : i * DECIMALS ≤ 20 * DECIMALS :=
        Nat.mul_le_mul_right _ (by omega)
      have hb : 20 * DECIMALS < U256 := by decide
      omega
    have hterm : T x (i - 1) * x / (i * DECIMALS) = T x i := by
      conv_rhs => rw [show i = (i - 1) + 1 by omega]
      show _ = T x (i - 1) * x / ((i - 1 + 1) * DECIMALS)
      rw [show i - 1 + 1 = i by omega]
    have hsum : (DECIMALS + ∑ j ∈ Finset.range (i - 1), T x (j + 1)) + T x i =
        DECIMALS + ∑ j ∈ Finset.range i, T x (j + 1) := by
      conv_rhs => rw [show i = (i - 1) + 1 by omega]
      rw [Finset.sum_range_succ, show i - 1 + 1 = i by omega]
      omega
    have hb3 : (DECIMALS + ∑ j ∈ Finset.range (i - 1), T x (j + 1)) + T x i < U256 := by
      rw [hsum]
      have h5 := partialSum_le x (show i ≤ 20 by omega)
      have h6 : maclaurinSum x ≤ maclaurinSum XMAX := maclaurinSum_mono hx
      have h7 : maclaurinSum XMAX < U256 := by
        have := exp_XMAX_lt
        rwa [exp_eq_maclaurinSum] at this
      omega
    show (match cmul (T x (i - 1)) x with
      | none => none
      | some p =>
        match cmul i DECIMALS with
        | none => none
        | some q =>
          let term' := p / q
          match cadd (DECIMALS + ∑ j ∈ Finset.range (i - 1), T x (j + 1)) term' with
          | none => none
          | some sum' =>
            if term' < 1 then some sum'
            else expCheckedAux x n (i + 1) term' sum') = _
    rw [cmul_pos hb1, cmul_pos hb2]
    simp only [hterm]
    rw [cadd_pos (hterm ▸ hb3)]
    simp only [hsum]
    show (if T x i < 1 then some (DECIMALS + ∑ j ∈ Finset.range i, T x (j + 1))
      else expCheckedAux x n (i + 1) (T x i)
        (DECIMALS + ∑ j ∈ Finset.range i, T x (j + 1))) = _
    have hrhs : expAux x (n + 1) i (T x (i - 1))
        (DECIMALS + ∑ j ∈ Finset.range (i - 1), T x (j + 1)) =
        (if T x i < 1 then DECIMALS + ∑ j ∈ Finset.range i, T x (j + 1)
         else expAux x n (i + 1) (T x i)
           (DECIMALS + ∑ j ∈ Finset.range i, T x (j + 1))) := by
      show (let term' := T x (i - 1) * x / (i * DECIMALS);
            let sum' := (DECIMALS + ∑ j ∈ Finset.range (i - 1), T x (j + 1)) + term';
            if term' < 1 then sum' else expAux x n (i + 1) term' sum') = _
      simp only [hterm, hsum]
    rw [hrhs]
    by_cases hz : T x i < 1
    · simp only [if_pos hz]
    · simp only [if_neg hz]
      have := ih (i + 1) (by omega) (by omega)
      rw [show i + 1 - 1 = i by omega] at this
      exact this

/-- On `[0, XMAX]`, `expChecked` succeeds and agrees with `exp`. -/
theorem expChecked_eq {x : Nat} (hx : x ≤ XMAX) : expChecked x = some (exp x) := by
  have := expCheckedAux_eq hx 20 1 (by omega) (by omega)
  simpa [expChecked, exp, T] using this

theorem exp_mono {x y : Nat} (h : x ≤ y) : exp x ≤ exp y := by
  rw [exp_eq_maclaurinSum, exp_eq_maclaurinSum]
  exact maclaurinSum_mono h

theorem maxCurveRaw_eq : maxCurveRaw = 800000 * DECIMALS := by decide

/-- Within the curve cap, the checked cost computation never overflows and
agrees with the pure `calculateCost`. -/
theorem calculateCostChecked_eq {cur a : Nat} (h : cur + a ≤ maxCurveRaw) :
    calculateCostChecked cur a = some (calculateCost cur a) := by
  have hU : maxCurveRaw < U256 := by decide
  have hb1 : cur + a < U256 := by omega
  have hb2 : K * (cur + a) < U256 := by
    have ha : K * (cur + a) ≤ K * maxCurveRaw := Nat.mul_le_mul_left _ h
    have hb : K * maxCurveRaw < U256 := by decide
    omega
  have hb3 : K * cur < U256 := by
    have ha : K * cur ≤ K * (cur + a) := Nat.mul_le_mul_left _ (by omega)
    omega
  have hx1 : K * (cur + a) / DECIMALS ≤ XMAX := by
    have ha : K * (cur + a) / DECIMALS ≤ K * maxCurveRaw / DECIMALS :=
      Nat.div_le_div_right (Nat.mul_le_mul_left _ h)
    have hb : K * maxCurveRaw / DECIMALS = XMAX := by
      rw [maxCurveRaw_eq, exponent_whole]
      rfl
    omega
  have hx0 : K * cur / DECIMALS ≤ K * (cur + a) / DECIMALS :=
    Nat.div_le_div_right (Nat.mul_le_mul_left _ (by omega))
  have hsub : exp (K * cur / DECIMALS) ≤ exp (K * (cur + a) / DECIMALS) :=
    exp_mono hx0
  have hb4 : INITIAL_PRICE *
      (exp (K * (cur + a) / DECIMALS) - exp (K * cur / DECIMALS)) < U256 := by
    have ha : exp (K * (cur + a) / DECIMALS) ≤ exp XMAX := exp_mono hx1
    have hc : INITIAL_PRICE * exp XMAX < U256 := by decide
    have hd : INITIAL_PRICE *
        (exp (K * (cur + a) / DECIMALS) - exp (K * cur / DECIMALS)) ≤
        INITIAL_PRICE * exp XMAX :=
      Nat.mul_le_mul_left _ (by omega)
    omega
  simp only [calculateCostChecked, cadd_pos hb1, cmul_pos hb2, cmul_pos hb3,
    expChecked_eq hx1, expChecked_eq (le_trans hx0 hx1), csub_pos hsub,
    cmul_pos hb4, calculateCost]

/-! ### The inverse solver (`calculateTokenAmountFromEth`) -/

/-- The `while (low < high)` loop of `calculateTokenAmountFromEth`, with
fuel: each round either sets `low = mid` (cost evaluated and affordable)
or `high = mid - 1` (cost unaffordable, or the `staticcall` failed).
`high - low` shrinks every round, so `fuel = high - low` suffices. -/
def searchAux (cur eff : Nat) : Nat → Nat → Nat → Nat
  | 0, low, _ => low
  | fuel + 1, low, high =>
    if low < high then
      let mid := (low + high + 1) / 2
      match calculateCostChecked cur (mid * DECIMALS) with
      | some cost =>
        if cost ≤ eff then searchAux cur eff fuel mid high
        else searchAux cur eff fuel low (mid - 1)
      | none => searchAux cur eff fuel low (mid - 1)
    else low

/-- Source `calculateTokenAmountFromEth`, as a function of the asset's
current curve supply (the asset-existence and launch checks are the
caller's state, not arithmetic). -/
def calculateTokenAmountFromEth (currentRaw ethAmount : Nat) : Nat :=
  let availRaw := MAX_SUPPLY - INIT_SUPPLY - currentRaw
  let maxTokens := availRaw / DECIMALS
  if maxTokens = 0 ∨ ethAmount = 0 then 0
  else
    let effectiveEth := ethAmount * (BPS_DENOMINATOR - FEE_BPS) / BPS_DENOMINATOR
    searchAux currentRaw effectiveEth maxTokens 0 maxTokens

/-- A whole-token quantity is *good* when the checked cost evaluation
succeeds (no overflow) and the result is within the spend limit. -/
def goodQty (cur eff q : Nat) : Bool :=
  match calculateCostChecked cur (q * DECIMALS) with
  | some c => decide (c ≤ eff)
  | none => false

/-- Loop invariant proof for the binary search: given a downward-closed
good-set containing `low` and excluding `(high, hi0]`, the loop returns
the greatest good quantity in `[low, high]`. -/
theorem searchAux_spec {cur eff : Nat} (hi0 : Nat)
    (hdc : ∀ q1 q2, q1 ≤ q2 → q2 ≤ hi0 → goodQty cur eff q2 = true →
      goodQty cur eff q1 = true) :
    ∀ fuel low high, low ≤ high → high ≤ hi0 → high - low ≤ fuel →
      goodQty cur eff low = true →
      (∀ q, high < q → q ≤ hi0 → goodQty cur eff q = false) →
      goodQty cur eff (searchAux cur eff fuel low high) = true ∧
        low ≤ searchAux cur eff fuel low high ∧
        searchAux cur eff fuel low high ≤ high ∧
        ∀ q, searchAux cur eff fuel low high < q → q ≤ hi0 →
          goodQty cur eff q = false := by
  have hsucc : ∀ n low high, searchAux cur eff (n + 1) low high =
      if low < high then
        (match calculateCostChecked cur (((low + high + 1) / 2) * DECIMALS) with
         | some cost =>
           if cost ≤ eff then searchAux cur eff n ((low + high + 1) / 2) high
           else searchAux cur eff n low ((low + high + 1) / 2 - 1)
         | none => searchAux cur eff n low ((low + high + 1) / 2 - 1))
      else low := fun _ _ _ => rfl
  intro fuel
  induction fuel with
  | zero =>
    intro low high hlh hh hf hgood hbad
    have hle : low = high := by omega
    subst hle
    exact ⟨hgood, le_refl _, le_refl _, hbad⟩
  | succ n ih =>
    intro low high hlh hh hf hgood hbad
    rw [hsucc]
    by_cases hlt : low < high
    · rw [if_pos hlt]
      have hmid1 : low < (low + high + 1) / 2 := by omega
      have hmid2 : (low + high + 1) / 2 ≤ high := by omega
      rcases hcc : calculateCostChecked cur (((low + high + 1) / 2) * DECIMALS) with
        _ | cost
      · -- overflow at the midpoint: move the upper bound down
        simp only [hcc]
        have hmidbad : goodQty cur eff ((low + high + 1) / 2) = false := by
          simp [goodQty, hcc]
        have hbad' : ∀ q, (low + high + 1) / 2 - 1 < q → q ≤ hi0 →
            goodQty cur eff q = false := by
          intro q hq1 hq2
          by_contra hcon
          have hq3 : goodQty cur eff q = true := by
            cases hgq : goodQty cur eff q with
            | false => exact absurd hgq hcon
            | true => rfl
          have := hdc ((low + high + 1) / 2) q (by omega) hq2 hq3
          rw [hmidbad] at this
          exact Bool.false_ne_true this
        obtain ⟨g1, g2, g3, g4⟩ := ih low ((low + high + 1) / 2 - 1) (by omega)
          (by omega) (by omega) hgood hbad'
        exact ⟨g1, g2, by omega, g4⟩
      · simp only [hcc]
        by_cases hcheap : cost ≤ eff
        · rw [if_pos hcheap]
          have hmidgood : goodQty cur eff ((low + high + 1) / 2) = true := by
            simp [goodQty, hcc, hcheap]
          obtain ⟨g1, g2, g3, g4⟩ := ih ((low + high + 1) / 2) high (by omega) hh
            (by omega) hmidgood hbad
          exact ⟨g1, by omega, g3, g4⟩
        · rw [if_neg hcheap]
          have hmidbad : goodQty cur eff ((low + high + 1) / 2) = false := by
            simp only [goodQty, hcc]
            simpa using hcheap
          have hbad' : ∀ q, (low + high + 1) / 2 - 1 < q → q ≤ hi0 →
              goodQty cur eff q = false := by
            intro q hq1 hq2
            by_contra hcon
            have hq3 : goodQty cur eff q = true := by
              cases hgq : goodQty cur eff q with
              | false => exact absurd hgq hcon
              | true => rfl
            have := hdc ((low + high + 1) / 2) q (by omega) hq2 hq3
            rw [hmidbad] at this
            exact Bool.false_ne_true this
          obtain ⟨g1, g2, g3, g4⟩ := ih low ((low + high + 1) / 2 - 1) (by omega)
            (by omega) (by omega) hgood hbad'
          exact ⟨g1, g2, by omega, g4⟩
    · rw [if_neg hlt]
      have hle : low = high := by omega
      subst hle
      exact ⟨hgood, le_refl _, le_refl _, hbad⟩

theorem inRange_of_le_maxTokens {currentRaw q : Nat} (hcur : currentRaw ≤ maxCurveRaw)
    (hq : q ≤ (MAX_SUPPLY - INIT_SUPPLY - currentRaw) / DECIMALS) :
    currentRaw + q * DECIMALS ≤ maxCurveRaw := by
  have h1 : q * DECIMALS ≤
      (MAX_SUPPLY - INIT_SUPPLY - currentRaw) / DECIMALS * DECIMALS :=
    Nat.mul_le_mul_right _ hq
  have h2 : (MAX_SUPPLY - INIT_SUPPLY - currentRaw) / DECIMALS * DECIMALS ≤
      MAX_SUPPLY - INIT_SUPPLY - currentRaw := Nat.div_mul_le_self _ _
  have h3 : MAX_SUPPLY - INIT_SUPPLY = maxCurveRaw := rfl
  omega

/-- Downward closure of the good set on `[0, maxTokens]`: a cheaper (smaller)
whole-token quantity of an affordable one is affordable. -/
theorem goodQty_downward {currentRaw eff : Nat} (hcur : currentRaw ≤ maxCurveRaw) :
    ∀ q1 q2, q1 ≤ q2 → q2 ≤ (MAX_SUPPLY - INIT_SUPPLY - currentRaw) / DECIMALS →
      goodQty currentRaw eff q2 = true → goodQty currentRaw eff q1 = true := by
  intro q1 q2 h12 h2mt hg2
  have hr2 : calculateCostChecked currentRaw (q2 * DECIMALS) =
      some (calculateCost currentRaw (q2 * DECIMALS)) :=
    calculateCostChecked_eq (inRange_of_le_maxTokens hcur h2mt)
  have hr1 : calculateCostChecked currentRaw (q1 * DECIMALS) =
      some (calculateCost currentRaw (q1 * DECIMALS)) :=
    calculateCostChecked_eq (inRange_of_le_maxTokens hcur (le_trans h12 h2mt))
  rw [goodQty, hr2] at hg2
  have hc2 : calculateCost currentRaw (q2 * DECIMALS) ≤ eff := of_decide_eq_true hg2
  have hc1 : calculateCost currentRaw (q1 * DECIMALS) ≤ eff :=
    le_trans (calculateCost_mono_amount currentRaw
      (Nat.mul_le_mul_right _ h12)) hc2
  rw [goodQty, hr1]
  exact decide_eq_true hc1

theorem goodQty_zero {currentRaw eff : Nat} (hcur : currentRaw ≤ maxCurveRaw) :
    goodQty currentRaw eff 0 = true := by
  have hr : calculateCostChecked currentRaw (0 * DECIMALS) =
      some (calculateCost currentRaw (0 * DECIMALS)) :=
    calculateCostChecked_eq (by simpa using hcur)
  rw [goodQty, hr]
  have : calculateCost currentRaw (0 * DECIMALS) = 0 := by
    rw [Nat.zero_mul, calculateCost_zero]
  rw [this]
  exact decide_eq_true (Nat.zero_le _)

/-- Claim C5: for a non-launched asset (whose stored curve supply is at
most the curve cap, which the view's checked subtraction enforces),
`calculateTokenAmountFromEth` returns the largest whole-token quantity
`q` with `q ≤ remainingCurveSupply / 1e18` such that the checked
evaluation of `calculateCost(currentRaw, q * 1e18)` succeeds without
overflow and is at most the fee-reduced spend amount
`ethAmount * (10000 - 100) / 10000`; an overflowing midpoint is never
treated as success (`goodQty` is `false` on overflow, and the search
moves its upper bound down). -/
theorem calculateTokenAmountFromEth_greatest (currentRaw ethAmount : Nat)
    (hcur : currentRaw ≤ maxCurveRaw) :
    calculateTokenAmountFromEth currentRaw ethAmount ≤
        (MAX_SUPPLY - INIT_SUPPLY - currentRaw) / DECIMALS ∧
      goodQty currentRaw
        (ethAmount * (BPS_DENOMINATOR - FEE_BPS) / BPS_DENOMINATOR)
        (calculateTokenAmountFromEth currentRaw ethAmount) = true ∧
      ∀ q, q ≤ (MAX_SUPPLY - INIT_SUPPLY - currentRaw) / DECIMALS →
        goodQty currentRaw
          (ethAmount * (BPS_DENOMINATOR - FEE_BPS) / BPS_DENOMINATOR) q = true →
        q ≤ calculateTokenAmountFromEth currentRaw ethAmount := by
  have hdef : calculateTokenAmountFromEth currentRaw ethAmount =
      (if (MAX_SUPPLY - INIT_SUPPLY - currentRaw) / DECIMALS = 0 ∨ ethAmount = 0
       then 0
       else searchAux currentRaw
         (ethAmount * (BPS_DENOMINATOR - FEE_BPS) / BPS_DENOMINATOR)
         ((MAX_SUPPLY - INIT_SUPPLY - currentRaw) / DECIMALS) 0
         ((MAX_SUPPLY - INIT_SUPPLY - currentRaw) / DECIMALS)) := rfl
  rw [hdef]
  set mt := (MAX_SUPPLY - INIT_SUPPLY - currentRaw) / DECIMALS with hmt
  by_cases h0 : mt = 0 ∨ ethAmount = 0
  · rw [if_pos h0]
    refine ⟨Nat.zero_le _, goodQty_zero hcur, ?_⟩
    intro q hq hgq
    rcases h0 with h0 | h0
    · omega
    · -- zero spendable: only `q = 0` can be affordable
      by_contra hq0
      have hq1 : 1 ≤ q := by omega
      have hr : calculateCostChecked currentRaw (q * DECIMALS) =
          some (calculateCost currentRaw (q * DECIMALS)) :=
        calculateCostChecked_eq (inRange_of_le_maxTokens hcur hq)
      rw [goodQty, hr] at hgq
      have hle : calculateCost currentRaw (q * DECIMALS) ≤
          ethAmount * (BPS_DENOMINATOR - FEE_BPS) / BPS_DENOMINATOR :=
        of_decide_eq_true hgq
      have heff : ethAmount * (BPS_DENOMINATOR - FEE_BPS) / BPS_DENOMINATOR = 0 := by
        rw [h0, Nat.zero_mul]
        rfl
      have hpos := calculateCost_pos currentRaw hq1
      omega
  · rw [if_neg h0]
    obtain ⟨g1, g2, g3, g4⟩ := searchAux_spec
      mt (goodQty_downward hcur) mt 0 mt
      (Nat.zero_le _) (le_refl _) (le_of_eq (Nat.sub_zero mt)) (goodQty_zero hcur)
      (by intro q hq1 hq2; exact absurd hq2 (by omega))
    refine ⟨g3, g1, ?_⟩
    intro q hq hgq
    by_contra hcon
    have hfalse := g4 q (by omega) hq
    rw [hgq] at hfalse
    exact Bool.noConfusion hfalse

/-! ### Ledger state machine

One asset's ledger entry together with the global protocol-fee
accumulator, the configurable listing fee, and the `Token` ERC20 state
observed by the factory (the trader's balance and the total supply).
A reverting call is `Except.error`; since an error carries no successor
state, failed calls are atomic by construction, matching EVM revert
semantics. -/

/-- Revert reasons of the embedded operations, one per `require` string. -/
inductive Err where
  /-- `"Unknown token"` -/
  | unknownToken : Err
  /-- `"Launched: use Uniswap"` -/
  | alreadyLaunched : Err
  /-- `"Curve complete"` -/
  | curveComplete : Err
  /-- `"Nothing to buy"` -/
  | nothingToBuy : Err
  /-- `"Insufficient SEI sent"` -/
  | insufficientPayment : Err
  /-- `"Insufficient balance"` -/
  | insufficientBalance : Err
  /-- `"Curve supply too low"` -/
  | curveSupplyTooLow : Err
  /-- `"Insufficient curve SEI"` -/
  | insufficientReserve : Err
  /-- `"No SEI for LP"` -/
  | noSeiForLp : Err
  /-- `"max supply exceeded"` (from `Token._mint`) -/
  | maxSupplyExceeded : Err
  /-- `"Creation fee required"` -/
  | creationFeeRequired : Err
deriving DecidableEq, Repr

/-- Factory state for one asset and one trader. -/
structure FState where
  /-- `curveSupply[tokenAddr]`: raw units sold via the curve. -/
  curveSupply : Nat
  /-- `addressToMemeToken[tokenAddr].fundingRaised`. -/
  fundingRaised : Nat
  /-- `addressToMemeToken[tokenAddr].isLaunched`. -/
  isLaunched : Bool
  /-- `protocolFeeBalance` of the factory (global). -/
  protocolFeeBalance : Nat
  /-- `listingFee` of the factory (global, owner-configurable). -/
  listingFee : Nat
  /-- `Token.balanceOf(msg.sender)` for the trader. -/
  traderBalance : Nat
  /-- `Token.totalSupply` of the asset's ERC20. -/
  tokenTotalSupply : Nat
deriving DecidableEq, Repr

/-- Source `buyMemeToken(tokenAddr, tokenQty)` with `msg.value = msgValue`.
Returns the new state, the function's return value `totalRequired`, and
the excess SEI refunded to the caller.  The Uniswap interaction inside
`_launchOnUniswap` is modelled as succeeding; its `require(ethAmount > 0)`
guard is kept. -/
def buyMemeToken (s : FState) (tokenQty msgValue : Nat) :
    Except Err (FState × Nat × Nat) :=
  if s.isLaunched then .error .alreadyLaunched
  else
    let currentRaw := s.curveSupply
    let availableRaw := maxCurveRaw - currentRaw
    if availableRaw = 0 then .error .curveComplete
    else
      let buyRaw0 := tokenQty * DECIMALS
      let buyRaw := if buyRaw0 > availableRaw then availableRaw else buyRaw0
      if buyRaw = 0 then .error .nothingToBuy
      else
        let curveCost := calculateCost currentRaw buyRaw
        let fee := curveCost * FEE_BPS / BPS_DENOMINATOR
        let totalRequired := curveCost + fee
        if msgValue < totalRequired then .error .insufficientPayment
        else if s.tokenTotalSupply + buyRaw > MAX_SUPPLY then .error .maxSupplyExceeded
        else
          let newSupply := currentRaw + buyRaw
          let fundingRaised := s.fundingRaised + curveCost
          let pfb := s.protocolFeeBalance + fee
          let refunded := msgValue - totalRequired
          if fundingRaised ≥ MEMECOIN_FUNDING_GOAL ∨ newSupply ≥ maxCurveRaw then
            let lpEth := fundingRaised
            if s.listingFee > 0 ∧ lpEth > s.listingFee then
              if lpEth - s.listingFee = 0 then .error .noSeiForLp
              else .ok ({ s with
                curveSupply := newSupply
                fundingRaised := 0
                isLaunched := true
                protocolFeeBalance := pfb + s.listingFee
                traderBalance := s.traderBalance + buyRaw
                tokenTotalSupply := s.tokenTotalSupply + buyRaw },
                totalRequired, refunded)
            else
              if lpEth = 0 then .error .noSeiForLp
              else .ok ({ s with
                curveSupply := newSupply
                fundingRaised := 0
                isLaunched := true
                protocolFeeBalance := pfb
                traderBalance := s.traderBalance + buyRaw
                tokenTotalSupply := s.tokenTotalSupply + buyRaw },
                totalRequired, refunded)
          else
            .ok ({ s with
              curveSupply := newSupply
              fundingRaised := fundingRaised
              protocolFeeBalance := pfb
              traderBalance := s.traderBalance + buyRaw
              tokenTotalSupply := s.tokenTotalSupply + buyRaw },
              totalRequired, refunded)

/-- Source `sellMemeToken(tokenAddr, tokenQty)`.  Returns the new state
and the net SEI refunded. -/
def sellMemeToken (s : FState) (tokenQty : Nat) : Except Err (FState × Nat) :=
  if s.isLaunched then .error .alreadyLaunched
  else
    let qtyRaw := tokenQty * DECIMALS
    let currentRaw := s.curveSupply
    if s.traderBalance < qtyRaw then .error .insufficientBalance
    else if currentRaw < qtyRaw then .error .curveSupplyTooLow
    else
      let refund := calculateRefund currentRaw qtyRaw
      if s.fundingRaised < refund then .error .insufficientReserve
      else
        let fee := refund * FEE_BPS / BPS_DENOMINATOR
        let netRefund := refund - fee
        .ok ({ s with
          curveSupply := currentRaw - qtyRaw
          fundingRaised := s.fundingRaised - refund
          protocolFeeBalance := s.protocolFeeBalance + fee
          traderBalance := s.traderBalance - qtyRaw
          tokenTotalSupply := s.tokenTotalSupply - qtyRaw }, netRefund)

/-- Source `createMemeToken{value: msgValue}(...)`: given the current
global `protocolFeeBalance` and `listingFee`, returns the state of the
freshly created asset.  The whole `msg.value` is added to the fee
balance; `Token`'s constructor mints `INIT_SUPPLY` to the factory. -/
def createMemeToken (protocolFeeBalance listingFee msgValue : Nat) :
    Except Err FState :=
  if msgValue < MEMETOKEN_CREATION_FEE then .error .creationFeeRequired
  else .ok {
    curveSupply := 0
    fundingRaised := 0
    isLaunched := false
    protocolFeeBalance := protocolFeeBalance + msgValue
    listingFee := listingFee
    traderBalance := 0
    tokenTotalSupply := INIT_SUPPLY }

/-! ### Derived quantities of a buy -/

/-- The raw amount a buy actually fills: the requested amount clamped to
the remaining curve supply. -/
def buyRawOf (s : FState) (qty : Nat) : Nat :=
  min (qty * DECIMALS) (maxCurveRaw - s.curveSupply)

/-- The pre-fee curve cost of the actually filled amount. -/
def buyCostOf (s : FState) (qty : Nat) : Nat :=
  calculateCost s.curveSupply (buyRawOf s qty)

/-- The 1% trading fee on the filled amount's cost. -/
def buyFeeOf (s : FState) (qty : Nat) : Nat :=
  buyCostOf s qty * FEE_BPS / BPS_DENOMINATOR

/-- The graduation condition evaluated inside a buy: funding goal reached
or curve fully sold. -/
def launchCond (s : FState) (qty : Nat) : Prop :=
  MEMECOIN_FUNDING_GOAL ≤ s.fundingRaised + buyCostOf s qty ∨
    maxCurveRaw ≤ s.curveSupply + buyRawOf s qty

instance (s : FState) (qty : Nat) : Decidable (launchCond s qty) := by
  unfold launchCond
  infer_instance

/-- Inversion of a successful buy: all its `require`s held, and the new
state, return value, and refund are exactly as computed by the source. -/
theorem buyMemeToken_ok_inv {s : FState} {qty v : Nat} {s' : FState} {r ref : Nat}
    (h : buyMemeToken s qty v = .ok (s', r, ref)) :
    s.isLaunched = false ∧
    0 < maxCurveRaw - s.curveSupply ∧
    0 < buyRawOf s qty ∧
    buyCostOf s qty + buyFeeOf s qty ≤ v ∧
    s.tokenTotalSupply + buyRawOf s qty ≤ MAX_SUPPLY ∧
    r = buyCostOf s qty + buyFeeOf s qty ∧
    ref = v - (buyCostOf s qty + buyFeeOf s qty) ∧
    s'.curveSupply = s.curveSupply + buyRawOf s qty ∧
    s'.listingFee = s.listingFee ∧
    s'.traderBalance = s.traderBalance + buyRawOf s qty ∧
    s'.tokenTotalSupply = s.tokenTotalSupply + buyRawOf s qty ∧
    ((s'.isLaunched = true ∧ launchCond s qty ∧ s'.fundingRaised = 0) ∨
     (s'.isLaunched = false ∧ ¬launchCond s qty ∧
       s'.fundingRaised = s.fundingRaised + buyCostOf s qty ∧
       s'.protocolFeeBalance = s.protocolFeeBalance + buyFeeOf s qty)) := by
  simp only [buyMemeToken] at h
  have hmin : (if qty * DECIMALS > maxCurveRaw - s.curveSupply
      then maxCurveRaw - s.curveSupply else qty * DECIMALS) = buyRawOf s qty := by
    unfold buyRawOf
    split <;> omega
  rw [hmin] at h
  have hc : calculateCost s.curveSupply (buyRawOf s qty) = buyCostOf s qty := rfl
  rw [hc] at h
  have hf : buyCostOf s qty * FEE_BPS / BPS_DENOMINATOR = buyFeeOf s qty := rfl
  rw [hf] at h
  by_cases h1 : s.isLaunched = true
  · rw [if_pos h1] at h
    exact Except.noConfusion h
  rw [if_neg h1] at h
  by_cases h2 : maxCurveRaw - s.curveSupply = 0
  · rw [if_pos h2] at h
    exact Except.noConfusion h
  rw [if_neg h2] at h
  by_cases h3 : buyRawOf s qty = 0
  · rw [if_pos h3] at h
    exact Except.noConfusion h
  rw [if_neg h3] at h
  by_cases h4 : v < buyCostOf s qty + buyFeeOf s qty
  · rw [if_pos h4] at h
    exact Except.noConfusion h
  rw [if_neg h4] at h
  by_cases h5 : s.tokenTotalSupply + buyRawOf s qty > MAX_SUPPLY
  · rw [if_pos h5] at h
    exact Except.noConfusion h
  rw [if_neg h5] at h
  have hlaunch : s.isLaunched = false := by
    cases hb : s.isLaunched with
    | false => rfl
    | true => exact absurd hb h1
  by_cases h6 : s.fundingRaised + buyCostOf s qty ≥ MEMECOIN_FUNDING_GOAL ∨
      s.curveSupply + buyRawOf s qty ≥ maxCurveRaw
  · rw [if_pos h6] at h
    by_cases h7 : s.listingFee > 0 ∧ s.fundingRaised + buyCostOf s qty > s.listingFee
    · rw [if_pos h7] at h
      by_cases h8 : s.fundingRaised + buyCostOf s qty - s.listingFee = 0
      · rw [if_pos h8] at h
        exact Except.noConfusion h
      rw [if_neg h8] at h
      simp only [Except.ok.injEq, Prod.mk.injEq] at h
      obtain ⟨hs, hr, href⟩ := h
      subst hs hr href
      exact ⟨hlaunch, by omega, by omega, by omega, by omega, rfl, rfl,
        rfl, rfl, rfl, rfl, Or.inl ⟨rfl, h6, rfl⟩⟩
    · rw [if_neg h7] at h
      by_cases h9 : s.fundingRaised + buyCostOf s qty = 0
      · rw [if_pos h9] at h
        exact Except.noConfusion h
      rw [if_neg h9] at h
      simp only [Except.ok.injEq, Prod.mk.injEq] at h
      obtain ⟨hs, hr, href⟩ := h
      subst hs hr href
      exact ⟨hlaunch, by omega, by omega, by omega, by omega, rfl, rfl,
        rfl, rfl, rfl, rfl, Or.inl ⟨rfl, h6, rfl⟩⟩
  · rw [if_neg h6] at h
    simp only [Except.ok.injEq, Prod.mk.injEq] at h
    obtain ⟨hs, hr, href⟩ := h
    subst hs hr href
    exact ⟨hlaunch, by omega, by omega, by omega, by omega, rfl, rfl,
      rfl, rfl, rfl, rfl, Or.inr ⟨hlaunch, h6, rfl, rfl⟩⟩

/-- Inversion of a successful sell. -/
theorem sellMemeToken_ok_inv {s : FState} {qty : Nat} {s' : FState} {net : Nat}
    (h : sellMemeToken s qty = .ok (s', net)) :
    s.isLaunched = false ∧
    qty * DECIMALS ≤ s.traderBalance ∧
    qty * DECIMALS ≤ s.curveSupply ∧
    calculateRefund s.curveSupply (qty * DECIMALS) ≤ s.fundingRaised ∧
    net = calculateRefund s.curveSupply (qty * DECIMALS) -
      calculateRefund s.curveSupply (qty * DECIMALS) * FEE_BPS / BPS_DENOMINATOR ∧
    s' = { s with
      curveSupply := s.curveSupply - qty * DECIMALS
      fundingRaised :=
        s.fundingRaised - calculateRefund s.curveSupply (qty * DECIMALS)
      protocolFeeBalance := s.protocolFeeBalance +
        calculateRefund s.curveSupply (qty * DECIMALS) * FEE_BPS / BPS_DENOMINATOR
      traderBalance := s.traderBalance - qty * DECIMALS
      tokenTotalSupply := s.tokenTotalSupply - qty * DECIMALS } := by
  simp only [sellMemeToken] at h
  by_cases h1 : s.isLaunched = true
  · rw [if_pos h1] at h
    exact Except.noConfusion h
  rw [if_neg h1] at h
  by_cases h2 : s.traderBalance < qty * DECIMALS
  · rw [if_pos h2] at h
    exact Except.noConfusion h
  rw [if_neg h2] at h
  by_cases h3 : s.curveSupply < qty * DECIMALS
  · rw [if_pos h3] at h
    exact Except.noConfusion h
  rw [if_neg h3] at h
  by_cases h4 : s.fundingRaised < calculateRefund s.curveSupply (qty * DECIMALS)
  · rw [if_pos h4] at h
    exact Except.noConfusion h
  rw [if_neg h4] at h
  simp only [Except.ok.injEq, Prod.mk.injEq] at h
  obtain ⟨hs, hnet⟩ := h
  subst hs hnet
  have hlaunch : s.isLaunched = false := by
    cases hb : s.isLaunched with
    | false => rfl
    | true => exact absurd hb h1
  exact ⟨hlaunch, by omega, by omega, by omega, rfl, rfl⟩

/-- A buy on a launched asset reverts with `"Launched: use Uniswap"`. -/
theorem buyMemeToken_launched {s : FState} (qty v : Nat) (h : s.isLaunched = true) :
    buyMemeToken s qty v = .error .alreadyLaunched := by
  simp [buyMemeToken, h]

/-- A sell on a launched asset reverts with `"Launched: use Uniswap"`. -/
theorem sellMemeToken_launched {s : FState} (qty : Nat) (h : s.isLaunched = true) :
    sellMemeToken s qty = .error .alreadyLaunched := by
  simp [sellMemeToken, h]

/-! ### Claim theorems -/

/-- Claim C1: a successful buy sets `isLaunched` exactly when the goal or
curve-cap condition is met by that buy; on a launched asset every buy and
sell fails with the already-launched error; a successful sell never
changes `isLaunched`.  Together these make `isLaunched` a one-way latch:
no operation on the asset ever resets it. -/
theorem c1_launch_one_way_latch (s : FState) (qty v : Nat) :
    (s.isLaunched = true →
      buyMemeToken s qty v = .error .alreadyLaunched ∧
        sellMemeToken s qty = .error .alreadyLaunched) ∧
    (∀ s' r ref, buyMemeToken s qty v = .ok (s', r, ref) →
      (s'.isLaunched = true ↔ launchCond s qty)) ∧
    (∀ s' net, sellMemeToken s qty = .ok (s', net) →
      s'.isLaunched = s.isLaunched) := by
  refine ⟨fun h => ⟨buyMemeToken_launched qty v h, sellMemeToken_launched qty h⟩,
    ?_, ?_⟩
  · intro s' r ref h
    obtain ⟨-, -, -, -, -, -, -, -, -, -, -, hor⟩ := buyMemeToken_ok_inv h
    rcases hor with ⟨hl, hc, -⟩ | ⟨hl, hc, -, -⟩
    · exact iff_of_true hl hc
    · exact iff_of_false (by simp [hl]) hc
  · intro s' net h
    obtain ⟨-, -, -, -, -, hs⟩ := sellMemeToken_ok_inv h
    subst hs
    rfl

/-- A launched asset, used to witness C1. -/
def sLaunchedEx : FState :=
  ⟨0, 0, true, 0, 0, 0, INIT_SUPPLY⟩

theorem c1_launch_one_way_latch_witness :
    buyMemeToken sLaunchedEx 1 0 = .error .alreadyLaunched ∧
      sellMemeToken sLaunchedEx 1 = .error .alreadyLaunched :=
  (c1_launch_one_way_latch sLaunchedEx 1 0).1 rfl

/-- Claim C2: a sell whose gross refund exceeds the asset's
`fundingRaised` (with the earlier balance and supply checks passing)
fails with the insufficient-reserve error, and — the embedding returning
no state on error — leaves the ledger untouched; moreover every
successful sell subtracts exactly its gross refund from `fundingRaised`,
so the reserve never underflows. -/
theorem c2_sell_insufficient_reserve (s : FState) (qty : Nat) :
    (s.isLaunched = false → qty * DECIMALS ≤ s.traderBalance →
      qty * DECIMALS ≤ s.curveSupply →
      s.fundingRaised < calculateRefund s.curveSupply (qty * DECIMALS) →
      sellMemeToken s qty = .error .insufficientReserve) ∧
    (∀ s' net, sellMemeToken s qty = .ok (s', net) →
      s'.fundingRaised + calculateRefund s.curveSupply (qty * DECIMALS) =
        s.fundingRaised) := by
  constructor
  · intro h1 h2 h3 h4
    simp only [sellMemeToken]
    rw [if_neg (by simp [h1]), if_neg (not_lt.mpr h2), if_neg (not_lt.mpr h3),
      if_pos h4]
  · intro s' net h
    obtain ⟨-, -, -, hres, -, hs⟩ := sellMemeToken_ok_inv h
    subst hs
    simp only
    omega

/-- An insolvent asset (positive curve supply, zero reserve), used to
witness C2. -/
def sInsolventEx : FState :=
  ⟨DECIMALS, 0, false, 0, 0, DECIMALS, INIT_SUPPLY + DECIMALS⟩

theorem c2_sell_insufficient_reserve_witness :
    sellMemeToken sInsolventEx 1 = .error .insufficientReserve :=
  (c2_sell_insufficient_reserve sInsolventEx 1).1 rfl (by decide) (by decide)
    (by decide)

/-- The return value of a successful buy, for stating counterexamples. -/
def buyReturnValue (s : FState) (qty v : Nat) : Option Nat :=
  match buyMemeToken s qty v with
  | .ok (_, r, _) => some r
  | .error _ => none

/-- A fresh asset, used for the C3 counterexample and witness. -/
def sFreshEx : FState :=
  ⟨0, 0, false, 0, 0, 0, INIT_SUPPLY⟩

/-- Claim C3 counterexample: a successful buy of one whole token returns
the total SEI charged (`11514791510576015`), not the filled quantity
(`1`): `buyMemeToken` returns `totalRequired`, not `actualQtyFilled`. -/
theorem c3_buy_return_counterexample :
    buyReturnValue sFreshEx 1 (2 * 10 ^ 16) ≠ none ∧
      buyReturnValue sFreshEx 1 (2 * 10 ^ 16) ≠ some 1 := by
  decide

/-- Claim C3 (amended): a successful buy returns the total SEI charged
for the filled amount (curve cost plus the 1% fee, excess refunded
separately), and a successful sell returns the net SEI payout after the
1% fee is deducted from the gross refund. -/
theorem c3_return_values (s : FState) (qty v : Nat) :
    (∀ s' r ref, buyMemeToken s qty v = .ok (s', r, ref) →
      r = buyCostOf s qty + buyFeeOf s qty) ∧
    (∀ s' net, sellMemeToken s qty = .ok (s', net) →
      net = calculateRefund s.curveSupply (qty * DECIMALS) -
        calculateRefund s.curveSupply (qty * DECIMALS) * FEE_BPS /
          BPS_DENOMINATOR) := by
  constructor
  · intro s' r ref h
    exact (buyMemeToken_ok_inv h).2.2.2.2.2.1
  · intro s' net h
    exact (sellMemeToken_ok_inv h).2.2.2.2.1

/-- Post-state of the witness buy for C3. -/
def c3BuyState : FState :=
  ⟨DECIMALS, 11400783673837639, false, 114007836738376, 0, DECIMALS,
    INIT_SUPPLY + DECIMALS⟩

/-- An asset holding one curve-sold token and ample reserve, used for the
C3 sell witness. -/
def sSellEx : FState :=
  ⟨DECIMALS, 10 ^ 18, false, 0, 0, DECIMALS, INIT_SUPPLY + DECIMALS⟩

/-- Post-state of the witness sell for C3. -/
def c3SellState : FState :=
  ⟨0, 988599216326162361, false, 114007836738376, 0, 0, INIT_SUPPLY⟩

theorem c3_return_values_witness :
    11514791510576015 = buyCostOf sFreshEx 1 + buyFeeOf sFreshEx 1 ∧
      11286775837099263 = calculateRefund sSellEx.curveSupply (1 * DECIMALS) -
        calculateRefund sSellEx.curveSupply (1 * DECIMALS) * FEE_BPS /
          BPS_DENOMINATOR :=
  ⟨(c3_return_values sFreshEx 1 (2 * 10 ^ 16)).1 c3BuyState 11514791510576015
      8485208489423985 (by rfl),
   (c3_return_values sSellEx 1 0).2 c3SellState 11286775837099263 (by rfl)⟩

/-- Claim C4: a buy requesting more raw units than the remaining curve
supply fills exactly the remaining capacity: the caller is minted the
clamped amount, charged cost plus fee only for that amount, and refunded
exactly the supplied payment minus that charge. -/
theorem c4_partial_fill (s : FState) (qty v : Nat) (s' : FState) (r ref : Nat)
    (hover : maxCurveRaw - s.curveSupply < qty * DECIMALS)
    (h : buyMemeToken s qty v = .ok (s', r, ref)) :
    s'.curveSupply = maxCurveRaw ∧
    s'.traderBalance = s.traderBalance + (maxCurveRaw - s.curveSupply) ∧
    r = calculateCost s.curveSupply (maxCurveRaw - s.curveSupply) +
      calculateCost s.curveSupply (maxCurveRaw - s.curveSupply) * FEE_BPS /
        BPS_DENOMINATOR ∧
    ref = v - r := by
  obtain ⟨-, havail, -, -, -, hr, href, hcs, -, htb, -, -⟩ := buyMemeToken_ok_inv h
  have hclamp : buyRawOf s qty = maxCurveRaw - s.curveSupply := by
    unfold buyRawOf
    omega
  have hcost : buyCostOf s qty =
      calculateCost s.curveSupply (maxCurveRaw - s.curveSupply) := by
    unfold buyCostOf
    rw [hclamp]
  have hfee : buyFeeOf s qty =
      calculateCost s.curveSupply (maxCurveRaw - s.curveSupply) * FEE_BPS /
        BPS_DENOMINATOR := by
    unfold buyFeeOf
    rw [hcost]
  refine ⟨by omega, by omega, by rw [hr, hcost, hfee], ?_⟩
  rw [href, hr]

/-- An asset one token short of the curve cap, used to witness C4: a buy
request for 10 tokens fills only 1 and triggers graduation. -/
def s799999Ex : FState :=
  ⟨799999 * DECIMALS, 0, false, 0, 0, 0, INIT_SUPPLY + 799999 * DECIMALS⟩

/-- Post-state of the witness buy for C4 (curve complete, launched). -/
def c4BuyState : FState :=
  ⟨800000 * DECIMALS, 0, true, 5749985867695888, 0, DECIMALS, MAX_SUPPLY⟩

theorem c5_inverse_solver_witness :
    799997 * DECIMALS ≤ maxCurveRaw ∧
      calculateTokenAmountFromEth (799997 * DECIMALS) (10 ^ 18) ≤
        (MAX_SUPPLY - INIT_SUPPLY - 799997 * DECIMALS) / DECIMALS ∧
      goodQty (799997 * DECIMALS)
        (10 ^ 18 * (BPS_DENOMINATOR - FEE_BPS) / BPS_DENOMINATOR)
        (calculateTokenAmountFromEth (799997 * DECIMALS) (10 ^ 18)) = true :=
  ⟨by decide,
   (calculateTokenAmountFromEth_greatest (799997 * DECIMALS) (10 ^ 18)
     (by decide)).1,
   (calculateTokenAmountFromEth_greatest (799997 * DECIMALS) (10 ^ 18)
     (by decide)).2.1⟩

/-- Claim C6 counterexample: `calculateCost` is not strictly increasing in
the raw amount (`calculateCost 0 1 = calculateCost 0 2 = 0`, both Q18
exponents truncating to the same value), nor strictly increasing in the
raw supply (`calculateCost 0 1e18 = calculateCost 1 1e18`). -/
theorem c6_strict_mono_counterexample :
    calculateCost 0 1 = calculateCost 0 2 ∧
      calculateCost 0 DECIMALS = calculateCost 1 DECIMALS := by
  constructor
  · decide
  · decide

/-- Claim C6 (amended): at the whole-token granularity at which the
contract trades — amounts that are multiples of `DECIMALS` — the claim
holds: `calculateCost` is strictly increasing in the token amount for
every fixed supply, and strictly increasing in the supply for every
fixed positive token amount within the 800000-token curve cap. -/
theorem c6_cost_strict_mono_whole :
    (∀ c m1 m2, m1 < m2 →
      calculateCost c (m1 * DECIMALS) < calculateCost c (m2 * DECIMALS)) ∧
    (∀ u1 u2 m, 1 ≤ m → u1 < u2 → u2 + m ≤ 800000 →
      calculateCost (u1 * DECIMALS) (m * DECIMALS) <
        calculateCost (u2 * DECIMALS) (m * DECIMALS)) :=
  ⟨fun c _ _ h => calculateCost_strictMono_delta c h,
   fun _ _ _ hm h hcap => calculateCost_strictMono_supply hm h hcap⟩

theorem c6_cost_strict_mono_whole_witness :
    calculateCost 0 (1 * DECIMALS) < calculateCost 0 (2 * DECIMALS) ∧
      calculateCost (0 * DECIMALS) (1 * DECIMALS) <
        calculateCost (1 * DECIMALS) (1 * DECIMALS) :=
  ⟨c6_cost_strict_mono_whole.1 0 1 2 (by omega),
   c6_cost_strict_mono_whole.2 0 1 1 (by omega) (by omega) (by omega)⟩

/-- Claim C7 counterexample: one raw unit is a positive `delta`, yet its
cost is zero — the truncated Q18 exponents coincide, so
`calculateCost 0 1 = 0`, refuting `delta > 0 → cost > 0` at raw
granularity. -/
theorem c7_cost_pos_counterexample : 0 < 1 ∧ calculateCost 0 1 = 0 := by
  decide

/-- Claim C7 (amended): for every supply and every positive whole-token
amount (a positive multiple of `DECIMALS`, the granularity at which the
contract trades), `calculateCost` is strictly positive. -/
theorem c7_cost_pos_whole :
    ∀ c m, 1 ≤ m → 0 < calculateCost c (m * DECIMALS) :=
  fun c _ hm => calculateCost_pos c hm

theorem c7_cost_pos_whole_witness :
    (1 : Nat) ≤ 1 ∧ 0 < calculateCost 0 (1 * DECIMALS) :=
  ⟨le_refl 1, c7_cost_pos_whole 0 1 (le_refl 1)⟩

/-- Claim C8: for every input, `exp` computes the Q18 truncated Maclaurin
sum: starting from term `1e18` and sum `1e18`, each iteration sets
`term := term * x / (i * 1e18)` (truncating division) and adds it, for at
most 20 iterations; the early exit once a term truncates to zero does not
change the value, because all later terms are then zero — so `exp x`
equals the full 20-term truncated sum `maclaurinSum x`.  (In the `Nat`
embedding no overflow occurs; the claim's non-overflow proviso is
subsumed.) -/
theorem c8_exp_maclaurin : ∀ x, exp x = maclaurinSum x :=
  exp_eq_maclaurinSum

/-- Claim C9: buying zero tokens on a non-launched asset always fails —
with the curve-complete error when no curve supply remains, otherwise
with the nothing-to-buy error — and, the embedding returning no state on
error, mints nothing, charges nothing, and accrues no fees. -/
theorem c9_zero_qty_buy_fails (s : FState) (v : Nat)
    (h : s.isLaunched = false) :
    buyMemeToken s 0 v =
      .error (if maxCurveRaw - s.curveSupply = 0 then Err.curveComplete
        else Err.nothingToBuy) := by
  simp only [buyMemeToken]
  rw [if_neg (by simp [h])]
  by_cases h2 : maxCurveRaw - s.curveSupply = 0
  · rw [if_pos h2, if_pos h2]
  · rw [if_neg h2, if_neg h2]
    have hz : (if 0 * DECIMALS > maxCurveRaw - s.curveSupply
        then maxCurveRaw - s.curveSupply else 0 * DECIMALS) = 0 := by
      split <;> omega
    rw [hz, if_pos rfl]

theorem c9_zero_qty_buy_fails_witness :
    sFreshEx.isLaunched = false ∧
      buyMemeToken sFreshEx 0 5 = .error Err.nothingToBuy := by
  refine ⟨rfl, ?_⟩
  rw [c9_zero_qty_buy_fails sFreshEx 5 rfl, if_neg (by decide)]

/-- Claim C10: a creation call paying at least the fixed creation fee
succeeds, and the entire payment — any overpayment above the creation fee
included — is added to `protocolFeeBalance`; nothing is refunded to the
creator (the result carries no refund, unlike a buy). -/
theorem c10_create_keeps_full_payment (pfb lf v : Nat)
    (h : MEMETOKEN_CREATION_FEE ≤ v) :
    createMemeToken pfb lf v = .ok {
      curveSupply := 0
      fundingRaised := 0
      isLaunched := false
      protocolFeeBalance := pfb + v
      listingFee := lf
      traderBalance := 0
      tokenTotalSupply := INIT_SUPPLY } := by
  simp only [createMemeToken]
  rw [if_neg (not_lt.mpr h)]

theorem c10_create_keeps_full_payment_witness :
    MEMETOKEN_CREATION_FEE ≤ MEMETOKEN_CREATION_FEE + 7 ∧
      createMemeToken 5 3 (MEMETOKEN_CREATION_FEE + 7) = .ok {
        curveSupply := 0
        fundingRaised := 0
        isLaunched := false
        protocolFeeBalance := 5 + (MEMETOKEN_CREATION_FEE + 7)
        listingFee := 3
        traderBalance := 0
        tokenTotalSupply := INIT_SUPPLY } :=
  ⟨Nat.le_add_right _ 7,
   c10_create_keeps_full_payment 5 3 (MEMETOKEN_CREATION_FEE + 7)
     (Nat.le_add_right _ 7)⟩

theorem c4_partial_fill_witness :
    maxCurveRaw - s799999Ex.curveSupply < 10 * DECIMALS ∧
      (c4BuyState.curveSupply = maxCurveRaw ∧
        c4BuyState.traderBalance = s799999Ex.traderBalance +
          (maxCurveRaw - s799999Ex.curveSupply) ∧
        580748572637284709 =
          calculateCost s799999Ex.curveSupply
              (maxCurveRaw - s799999Ex.curveSupply) +
            calculateCost s799999Ex.curveSupply
                (maxCurveRaw - s799999Ex.curveSupply) * FEE_BPS /
              BPS_DENOMINATOR ∧
        419251427362715291 = 10 ^ 18 - 580748572637284709) :=
  ⟨by decide,
   c4_partial_fill s799999Ex 10 (10 ^ 18) c4BuyState 580748572637284709
     419251427362715291 (by decide) (by rfl)⟩

end BondingCurve
